import Mathlib

/-!
Verification of the harphonium audio-synthesis core against its
natural-language specification.

The development shallowly embeds the Rust sources:
* `src-tauri/src/audio/synthesis.rs` — the event type, the event
  coalescer `drain_and_coalesce_events`, the `FunDSPSynth` state with its
  parameter setters/getters, `handle_event`, and `fill_buffer`;
* `src-tauri/src/commands.rs` — the `set_waveform` Tauri command;
* `src-tauri/src/audio/android.rs` — the multi-strategy audio stream
  negotiation of `initialize_audio_engine` (named `openBestStream` here,
  after the contract name used in the spec).

Rust `f32` values are modelled by the type `F32` below: a rational payload
for finite values plus explicit infinities and NaN, with comparison and
`clamp` following the IEEE/Rust semantics (all comparisons with NaN are
false, so `clamp` propagates NaN).  The FunDSP `Net`/backend pair is
modelled by a log of structural mutations (`NetOp`), which is what the
claims about graph mutation and commit observe.
-/

/-- Model of Rust `f32`: finite values carry an exact rational (all the
constants the program manipulates are exactly representable, and no claim
depends on rounding), and the non-finite values are explicit. -/
inductive F32 where
  | finite (q : ℚ)
  | posInf
  | negInf
  | nan
deriving DecidableEq, Repr

/-- IEEE `<` on `F32`: every comparison involving NaN is false. -/
def F32.lt : F32 → F32 → Bool
  | .nan, _ => false
  | _, .nan => false
  | .negInf, .negInf => false
  | .negInf, _ => true
  | _, .negInf => false
  | .posInf, _ => false
  | .finite _, .posInf => true
  | .finite a, .finite b => decide (a < b)

/-- Rust `f32::clamp(self, min, max)`: `if self < min { min } else if
self > max { max } else { self }`.  In particular NaN is returned
unchanged, and infinities are clamped to the bounds. -/
def rustClamp (x lo hi : F32) : F32 :=
  if F32.lt x lo then lo else if F32.lt hi x then hi else x

/-- Rust `f32::is_finite`. -/
def F32.isFinite : F32 → Bool
  | .finite _ => true
  | _ => false

/-- The `Waveform` enum of `synthesis.rs`. -/
inductive Waveform where
  | sine
  | square
  | sawtooth
  | triangle
deriving DecidableEq, Repr

/-- `Waveform::as_str`. -/
def Waveform.asStr : Waveform → String
  | .sine => "sine"
  | .square => "square"
  | .sawtooth => "sawtooth"
  | .triangle => "triangle"

/-- `str::to_lowercase` restricted to the characters that matter here:
ASCII uppercase letters map to lowercase, all other characters are kept.
(No non-ASCII character has a Unicode lowercase image inside the four
waveform words, so this agrees with Rust on every string the match in
`Waveform::from_str` can accept.) -/
def toLowercase (s : List Char) : List Char := s.map Char.toLower

/-- `Waveform::from_str`: match the lowercased string against the four
literal names, `None` otherwise. -/
def Waveform.fromStr (s : List Char) : Option Waveform :=
  if toLowercase s = "sine".toList then some .sine
  else if toLowercase s = "square".toList then some .square
  else if toLowercase s = "sawtooth".toList then some .sawtooth
  else if toLowercase s = "triangle".toList then some .triangle
  else none

/-- The `AudioEvent` enum of `synthesis.rs`. -/
inductive AudioEvent where
  | playNote (frequency : F32)
  | setFrequency (frequency : F32)
  | noteOff
  | setMasterVolume (volume : F32)
  | setWaveform (waveform : Waveform)
  | setAttack (attack : F32)
  | setDecay (decay : F32)
  | setSustain (sustain : F32)
  | setRelease (release : F32)
  | setDelayTime (delayTime : F32)
  | setDelayFeedback (delayFeedback : F32)
  | setDelayMix (delayMix : F32)
  | setFilterCutoff (cutoff : F32)
  | setFilterResonance (resonance : F32)
  | getMasterVolume
  | getWaveform
  | getAttack
  | getDecay
  | getSustain
  | getRelease
  | getDelayTime
  | getDelayFeedback
  | getDelayMix
  | getFilterCutoff
  | getFilterResonance
deriving DecidableEq, Repr

/-- The twelve static string keys used by the `HashMap` in
`drain_and_coalesce_events`, one per coalescable event kind. -/
inductive CoalesceKind where
  | setFrequency
  | setMasterVolume
  | setWaveform
  | setAttack
  | setDecay
  | setSustain
  | setRelease
  | setDelayTime
  | setDelayFeedback
  | setDelayMix
  | setFilterCutoff
  | setFilterResonance
deriving DecidableEq, Repr

/-- The key under which `drain_and_coalesce_events` stores an event, or
`none` for the passthrough kinds (`PlayNote`, `NoteOff`, all queries). -/
def coalesceKey : AudioEvent → Option CoalesceKind
  | .setFrequency _ => some .setFrequency
  | .setMasterVolume _ => some .setMasterVolume
  | .setWaveform _ => some .setWaveform
  | .setAttack _ => some .setAttack
  | .setDecay _ => some .setDecay
  | .setSustain _ => some .setSustain
  | .setRelease _ => some .setRelease
  | .setDelayTime _ => some .setDelayTime
  | .setDelayFeedback _ => some .setDelayFeedback
  | .setDelayMix _ => some .setDelayMix
  | .setFilterCutoff _ => some .setFilterCutoff
  | .setFilterResonance _ => some .setFilterResonance
  | _ => none

/-- All twelve keys, in a fixed order; stands in for the (unspecified)
iteration order of `HashMap::into_values` over the coalesced tail. -/
def allCoalesceKinds : List CoalesceKind :=
  [.setFrequency, .setMasterVolume, .setWaveform, .setAttack, .setDecay,
   .setSustain, .setRelease, .setDelayTime, .setDelayFeedback, .setDelayMix,
   .setFilterCutoff, .setFilterResonance]

/-- The `while let Ok(event) = consumer.pop()` loop of
`drain_and_coalesce_events`: passthrough events are appended to
`passthrough_events` in arrival order, coalescable events overwrite the
map entry for their kind. -/
def drainLoop :
    List AudioEvent → List AudioEvent → (CoalesceKind → Option AudioEvent) →
    List AudioEvent × (CoalesceKind → Option AudioEvent)
  | [], pass, last => (pass, last)
  | e :: rest, pass, last =>
    match coalesceKey e with
    | some k => drainLoop rest pass (fun k2 => if k2 = k then some e else last k2)
    | none => drainLoop rest (pass ++ [e]) last

/-- `drain_and_coalesce_events`, with the queue contents given as the list
of events in pop order: run the drain loop, then extend the passthrough
list with the surviving map values. -/
def drainAndCoalesceEvents (queue : List AudioEvent) : List AudioEvent :=
  let res := drainLoop queue [] (fun _ => none)
  res.1 ++ allCoalesceKinds.filterMap res.2

/-- Spec-side description of the final coalescing map: the kind `k` entry
is the most recently popped event of kind `k`, falling back to the initial
map when the queue holds none. -/
def lastOfKind (queue : List AudioEvent) (last : CoalesceKind → Option AudioEvent)
    (k : CoalesceKind) : Option AudioEvent :=
  match (queue.filter (fun e => decide (coalesceKey e = some k))).getLast? with
  | some e => some e
  | none => last k

lemma drainLoop_spec (queue : List AudioEvent) :
    ∀ pass last, drainLoop queue pass last =
      (pass ++ queue.filter (fun e => (coalesceKey e).isNone),
       lastOfKind queue last) := by
  induction queue with
  | nil =>
    intro pass last
    have h2 : lastOfKind [] last = last := by
      funext k
      simp [lastOfKind]
    rw [drainLoop, h2]
    simp
  | cons e rest ih =>
    intro pass last
    cases hk : coalesceKey e with
    | none =>
      have hstep : drainLoop (e :: rest) pass last = drainLoop rest (pass ++ [e]) last := by
        rw [drainLoop, hk]
      rw [hstep, ih]
      simp only [Prod.mk.injEq]
      refine ⟨?_, ?_⟩
      · simp [List.filter_cons, hk]
      · funext k
        simp only [lastOfKind, List.filter_cons]
        have hfalse : decide (coalesceKey e = some k) = false := by
          simp [hk]
        rw [hfalse]
        simp
    | some k0 =>
      have hstep : drainLoop (e :: rest) pass last =
          drainLoop rest pass (fun k2 => if k2 = k0 then some e else last k2) := by
        rw [drainLoop, hk]
      rw [hstep, ih]
      simp only [Prod.mk.injEq]
      refine ⟨?_, ?_⟩
      · simp [List.filter_cons, hk]
      · funext k
        by_cases hkk : k = k0
        · subst hkk
          have htrue : decide (coalesceKey e = some k) = true := by simp [hk]
          simp only [lastOfKind, List.filter_cons, htrue, if_true]
          cases hl : rest.filter (fun e2 => decide (coalesceKey e2 = some k)) with
          | nil => simp
          | cons b l2 =>
            rw [List.getLast?_cons_cons]
            cases h2 : (b :: l2).getLast? with
            | none =>
              rw [List.getLast?_eq_none_iff] at h2
              exact absurd h2 (List.cons_ne_nil b l2)
            | some x => rfl
        · simp only [lastOfKind, List.filter_cons]
          have hfalse : decide (coalesceKey e = some k) = false := by
            simp only [decide_eq_false_iff_not, hk, Option.some.injEq]
            exact fun h => hkk h.symm
          rw [hfalse]
          simp [hkk]

lemma mem_of_getLast?_eq {α : Type} (l : List α) (a : α) (h : l.getLast? = some a) :
    a ∈ l := by
  obtain ⟨hne, rfl⟩ := List.mem_getLast?_eq_getLast (l := l) (x := a) h
  exact List.getLast_mem hne

/-- Every coalesce key is listed in `allCoalesceKinds`. -/
lemma mem_allCoalesceKinds (k : CoalesceKind) : k ∈ allCoalesceKinds := by
  cases k <;> simp [allCoalesceKinds]

lemma allCoalesceKinds_nodup : allCoalesceKinds.Nodup := by decide

/-- Filtering a per-kind `filterMap` over a duplicate-free kind list for a
single kind keeps exactly the entry of that kind. -/
lemma filter_filterMap_kinds (f : CoalesceKind → Option AudioEvent)
    (hf : ∀ k e, f k = some e → coalesceKey e = some k) :
    ∀ ks : List CoalesceKind, ks.Nodup → ∀ k : CoalesceKind,
      (ks.filterMap f).filter (fun e => decide (coalesceKey e = some k)) =
        if k ∈ ks then (f k).toList else [] := by
  intro ks
  induction ks with
  | nil => intro _ k; simp
  | cons k0 ks ih =>
    intro hnd k
    have hnd' : ks.Nodup := hnd.of_cons
    have hk0 : k0 ∉ ks := by
      intro hmem
      exact (List.nodup_cons.mp hnd).1 hmem
    cases hf0 : f k0 with
    | none =>
      rw [List.filterMap_cons, hf0, ih hnd' k]
      by_cases hkk : k = k0
      · subst hkk
        simp [hk0, hf0]
      · simp [List.mem_cons, hkk]
    | some e0 =>
      have he0 : coalesceKey e0 = some k0 := hf k0 e0 hf0
      rw [List.filterMap_cons, hf0]
      by_cases hkk : k = k0
      · subst hkk
        have htrue : decide (coalesceKey e0 = some k) = true := by simp [he0]
        rw [List.filter_cons, htrue, ih hnd' k]
        simp [hk0, hf0]
      · have hfalse : decide (coalesceKey e0 = some k) = false := by
          simp only [decide_eq_false_iff_not, he0, Option.some.injEq]
          exact fun h => hkk h.symm
        rw [List.filter_cons, hfalse, ih hnd' k]
        simp [List.mem_cons, hkk]

lemma lastOfKind_none (queue : List AudioEvent) :
    lastOfKind queue (fun _ => none) =
      fun k => (queue.filter (fun e => decide (coalesceKey e = some k))).getLast? := by
  funext k
  simp only [lastOfKind]
  cases h : (queue.filter (fun e => decide (coalesceKey e = some k))).getLast? <;> rfl

/-- C1: `drain_and_coalesce_events` returns the passthrough events
(`PlayNote`, `NoteOff`, all `Get*` queries) exactly once each, in their
original relative pop order, followed by the coalesced tail holding, for
each continuous-parameter kind, exactly the most recently popped event of
that kind (at most one event per kind in the whole result); and on the
queue `[SetMasterVolume 0.2, PlayNote 440, SetMasterVolume 0.5,
SetMasterVolume 0.9]` it returns `[PlayNote 440, SetMasterVolume 0.9]`. -/
theorem drain_and_coalesce_correct (queue : List AudioEvent) :
    drainAndCoalesceEvents queue =
      queue.filter (fun e => (coalesceKey e).isNone) ++
        allCoalesceKinds.filterMap
          (fun k => (queue.filter (fun e => decide (coalesceKey e = some k))).getLast?)
    ∧ (∀ k : CoalesceKind,
        (drainAndCoalesceEvents queue).filter (fun e => decide (coalesceKey e = some k)) =
          ((queue.filter (fun e => decide (coalesceKey e = some k))).getLast?).toList)
    ∧ drainAndCoalesceEvents
        [.setMasterVolume (.finite (2/10)), .playNote (.finite 440),
         .setMasterVolume (.finite (5/10)), .setMasterVolume (.finite (9/10))] =
      [.playNote (.finite 440), .setMasterVolume (.finite (9/10))] := by
  have hmain : drainAndCoalesceEvents queue =
      queue.filter (fun e => (coalesceKey e).isNone) ++
        allCoalesceKinds.filterMap
          (fun k => (queue.filter (fun e => decide (coalesceKey e = some k))).getLast?) := by
    unfold drainAndCoalesceEvents
    rw [drainLoop_spec, lastOfKind_none]
    simp
  refine ⟨hmain, ?_, by rfl⟩
  intro k
  rw [hmain, List.filter_append]
  have hpass : (queue.filter (fun e => (coalesceKey e).isNone)).filter
      (fun e => decide (coalesceKey e = some k)) = [] := by
    rw [List.filter_eq_nil_iff]
    intro a ha
    have hnone : (coalesceKey a).isNone = true := (List.mem_filter.mp ha).2
    simp only [decide_eq_true_eq]
    intro hcon
    rw [hcon] at hnone
    simp at hnone
  rw [hpass]
  have hf : ∀ (k2 : CoalesceKind) (e : AudioEvent),
      (queue.filter (fun e2 => decide (coalesceKey e2 = some k2))).getLast? = some e →
      coalesceKey e = some k2 := by
    intro k2 e he
    have hmem := mem_of_getLast?_eq _ _ he
    have := (List.mem_filter.mp hmem).2
    simpa using this
  rw [filter_filterMap_kinds _ hf allCoalesceKinds allCoalesceKinds_nodup k]
  simp [mem_allCoalesceKinds k]

/-- `AudioEventResult` of `synthesis.rs`. -/
inductive AudioEventResult where
  | ok
  | valueF32 (v : F32)
  | valueWaveform (w : Waveform)
  | err (msg : String)
deriving DecidableEq, Repr

/-- Structural mutations applied to the FunDSP `Net`.  The net itself is
opaque DSP state; the claims about it observe only which node is replaced
and when the edit is committed to the backend, so the model keeps the
ordered log of those operations. -/
inductive NetOp where
  | replaceOsc (w : Waveform)
  | replaceAdsr (attack decay sustain release : F32)
  | replaceDelay (delayTime : F32)
  | commit
deriving DecidableEq, Repr

/-- The `FunDSPSynth` struct: the shared control cells, the current
waveform, the enabled flag, and the log of structural net mutations
performed since construction. -/
structure FunDSPSynth where
  currentWaveform : Waveform
  frequencyVar : F32
  keyDownVar : F32
  masterVolumeVar : F32
  attackVar : F32
  decayVar : F32
  sustainVar : F32
  releaseVar : F32
  delayTimeVar : F32
  delayFeedbackVar : F32
  delayMixVar : F32
  filterCutoffVar : F32
  filterResonanceVar : F32
  sampleRate : F32
  enabled : Bool
  netOps : List NetOp
deriving DecidableEq, Repr

/-- `FunDSPSynth::new`: the shared cells start at the defaults of
`synthesis.rs` lines 196-211, the waveform is the default sine, and the
synth starts enabled.  The net is built once here, so the mutation log
starts empty. -/
def FunDSPSynth.new (sampleRate : F32) : FunDSPSynth :=
  { currentWaveform := .sine
    frequencyVar := .finite 440
    keyDownVar := .finite 0
    masterVolumeVar := .finite (7/10)
    attackVar := .finite (2/100)
    decayVar := .finite (2/10)
    sustainVar := .finite (6/10)
    releaseVar := .finite (3/10)
    delayTimeVar := .finite (3/10)
    delayFeedbackVar := .finite (4/10)
    delayMixVar := .finite (2/10)
    filterCutoffVar := .finite 1000
    filterResonanceVar := .finite (1/10)
    sampleRate := sampleRate
    enabled := true
    netOps := [] }

/-- A freshly constructed synth at 44100 Hz, used as the concrete state of
the witnesses. -/
def initialSynth : FunDSPSynth := FunDSPSynth.new (.finite 44100)

namespace FunDSPSynth

/-- `set_waveform`: no-op when the waveform is unchanged or the synth is
disabled; otherwise replace the oscillator node and commit. -/
def set_waveform (s : FunDSPSynth) (newWaveform : Waveform) : FunDSPSynth :=
  if newWaveform = s.currentWaveform ∨ s.enabled = false then s
  else
    { s with
      netOps := s.netOps ++ [.replaceOsc newWaveform, .commit]
      currentWaveform := newWaveform }

/-- `get_waveform`. -/
def get_waveform (s : FunDSPSynth) : Waveform := s.currentWaveform

/-- `play_note`: when enabled, set the frequency cell and raise the gate
cell to 1.0. -/
def play_note (s : FunDSPSynth) (frequency : F32) : FunDSPSynth :=
  if s.enabled then { s with frequencyVar := frequency, keyDownVar := .finite 1 }
  else s

/-- `set_frequency`: when enabled, set the frequency cell only. -/
def set_frequency (s : FunDSPSynth) (frequency : F32) : FunDSPSynth :=
  if s.enabled then { s with frequencyVar := frequency } else s

/-- `note_off`: when enabled, lower the gate cell to 0.0. -/
def note_off (s : FunDSPSynth) : FunDSPSynth :=
  if s.enabled then { s with keyDownVar := .finite 0 } else s

/-- `set_master_volume`: clamp to [0,1]; store only when enabled. -/
def set_master_volume (s : FunDSPSynth) (volume : F32) : FunDSPSynth :=
  if s.enabled then
    { s with masterVolumeVar := rustClamp volume (.finite 0) (.finite 1) }
  else s

/-- `get_master_volume`. -/
def get_master_volume (s : FunDSPSynth) : F32 := s.masterVolumeVar

/-- `set_adsr`: when enabled, rebuild the envelope node from the four
stored cells and commit. -/
def set_adsr (s : FunDSPSynth) : FunDSPSynth :=
  if s.enabled = false then s
  else
    { s with
      netOps := s.netOps ++
        [.replaceAdsr s.attackVar s.decayVar s.sustainVar s.releaseVar, .commit] }

/-- `set_attack`: store the value clamped to [0.001, 5], then `set_adsr`. -/
def set_attack (s : FunDSPSynth) (attack : F32) : FunDSPSynth :=
  set_adsr { s with attackVar := rustClamp attack (.finite (1/1000)) (.finite 5) }

/-- `get_attack`. -/
def get_attack (s : FunDSPSynth) : F32 := s.attackVar

/-- `set_decay`: store the value clamped to [0.001, 5], then `set_adsr`. -/
def set_decay (s : FunDSPSynth) (decay : F32) : FunDSPSynth :=
  set_adsr { s with decayVar := rustClamp decay (.finite (1/1000)) (.finite 5) }

/-- `get_decay`. -/
def get_decay (s : FunDSPSynth) : F32 := s.decayVar

/-- `set_sustain`: store the value clamped to [0, 1], then `set_adsr`. -/
def set_sustain (s : FunDSPSynth) (sustain : F32) : FunDSPSynth :=
  set_adsr { s with sustainVar := rustClamp sustain (.finite 0) (.finite 1) }

/-- `get_sustain`. -/
def get_sustain (s : FunDSPSynth) : F32 := s.sustainVar

/-- `set_release`: store the value clamped to [0.001, 10], then `set_adsr`. -/
def set_release (s : FunDSPSynth) (release : F32) : FunDSPSynth :=
  set_adsr { s with releaseVar := rustClamp release (.finite (1/1000)) (.finite 10) }

/-- `get_release`. -/
def get_release (s : FunDSPSynth) : F32 := s.releaseVar

/-- `set_delay_time`: no-op when disabled; otherwise store the value
clamped to [0, 5], rebuild the delay node from the stored cell, commit. -/
def set_delay_time (s : FunDSPSynth) (delayTime : F32) : FunDSPSynth :=
  if s.enabled = false then s
  else
    let s1 := { s with delayTimeVar := rustClamp delayTime (.finite 0) (.finite 5) }
    { s1 with netOps := s1.netOps ++ [.replaceDelay s1.delayTimeVar, .commit] }

/-- `get_delay_time`. -/
def get_delay_time (s : FunDSPSynth) : F32 := s.delayTimeVar

/-- `set_delay_feedback`: no-op when disabled; otherwise store the value
clamped to [0, 1] (no net mutation). -/
def set_delay_feedback (s : FunDSPSynth) (feedback : F32) : FunDSPSynth :=
  if s.enabled = false then s
  else { s with delayFeedbackVar := rustClamp feedback (.finite 0) (.finite 1) }

/-- `get_delay_feedback`. -/
def get_delay_feedback (s : FunDSPSynth) : F32 := s.delayFeedbackVar

/-- `set_delay_mix`: store the value clamped to [0, 1] (no enabled check,
no net mutation). -/
def set_delay_mix (s : FunDSPSynth) (delayMix : F32) : FunDSPSynth :=
  { s with delayMixVar := rustClamp delayMix (.finite 0) (.finite 1) }

/-- `get_delay_mix`. -/
def get_delay_mix (s : FunDSPSynth) : F32 := s.delayMixVar

/-- `set_filter_cutoff`: no-op when disabled; otherwise store the value
clamped to [20, 20000] (no net mutation). -/
def set_filter_cutoff (s : FunDSPSynth) (cutoff : F32) : FunDSPSynth :=
  if s.enabled = false then s
  else { s with filterCutoffVar := rustClamp cutoff (.finite 20) (.finite 20000) }

/-- `get_filter_cutoff`. -/
def get_filter_cutoff (s : FunDSPSynth) : F32 := s.filterCutoffVar

/-- `set_filter_resonance`: no-op when disabled; otherwise store the value
clamped to [0, 1] (no net mutation). -/
def set_filter_resonance (s : FunDSPSynth) (resonance : F32) : FunDSPSynth :=
  if s.enabled = false then s
  else { s with filterResonanceVar := rustClamp resonance (.finite 0) (.finite 1) }

/-- `get_filter_resonance`. -/
def get_filter_resonance (s : FunDSPSynth) : F32 := s.filterResonanceVar

/-- `handle_event`: route each event to the matching method; `&mut self`
becomes returning the updated state next to the result. -/
def handle_event (s : FunDSPSynth) (event : AudioEvent) :
    FunDSPSynth × AudioEventResult :=
  match event with
  | .playNote frequency => (s.play_note frequency, .ok)
  | .setFrequency frequency => (s.set_frequency frequency, .ok)
  | .noteOff => (s.note_off, .ok)
  | .setMasterVolume volume => (s.set_master_volume volume, .ok)
  | .setWaveform waveform => (s.set_waveform waveform, .ok)
  | .setAttack attack => (s.set_attack attack, .ok)
  | .setDecay decay => (s.set_decay decay, .ok)
  | .setSustain sustain => (s.set_sustain sustain, .ok)
  | .setRelease release => (s.set_release release, .ok)
  | .setDelayTime delayTime => (s.set_delay_time delayTime, .ok)
  | .setDelayFeedback delayFeedback => (s.set_delay_feedback delayFeedback, .ok)
  | .setDelayMix delayMix => (s.set_delay_mix delayMix, .ok)
  | .setFilterCutoff cutoff => (s.set_filter_cutoff cutoff, .ok)
  | .setFilterResonance resonance => (s.set_filter_resonance resonance, .ok)
  | .getMasterVolume => (s, .valueF32 s.get_master_volume)
  | .getWaveform => (s, .valueWaveform s.get_waveform)
  | .getAttack => (s, .valueF32 s.get_attack)
  | .getDecay => (s, .valueF32 s.get_decay)
  | .getSustain => (s, .valueF32 s.get_sustain)
  | .getRelease => (s, .valueF32 s.get_release)
  | .getDelayTime => (s, .valueF32 s.get_delay_time)
  | .getDelayFeedback => (s, .valueF32 s.get_delay_feedback)
  | .getDelayMix => (s, .valueF32 s.get_delay_mix)
  | .getFilterCutoff => (s, .valueF32 s.get_filter_cutoff)
  | .getFilterResonance => (s, .valueF32 s.get_filter_resonance)

end FunDSPSynth

/-- Evaluation of `rustClamp` on finite values. -/
lemma rustClamp_finite (q lo hi : ℚ) :
    rustClamp (.finite q) (.finite lo) (.finite hi) =
      if q < lo then .finite lo else if hi < q then .finite hi else .finite q := by
  simp [rustClamp, F32.lt]

/-- Every event handled through `handle_event` leaves the `enabled` flag
as it was; together with `FunDSPSynth.new` starting enabled this makes
`enabled = true` an invariant of every reachable synth state (nothing in
`synthesis.rs` ever writes `enabled`). -/
lemma handle_event_preserves_enabled (s : FunDSPSynth) (e : AudioEvent) :
    (s.handle_event e).1.enabled = s.enabled := by
  cases e <;>
    simp only [FunDSPSynth.handle_event, FunDSPSynth.play_note,
      FunDSPSynth.set_frequency, FunDSPSynth.note_off,
      FunDSPSynth.set_master_volume, FunDSPSynth.set_waveform,
      FunDSPSynth.set_attack, FunDSPSynth.set_decay, FunDSPSynth.set_sustain,
      FunDSPSynth.set_release, FunDSPSynth.set_adsr,
      FunDSPSynth.set_delay_time, FunDSPSynth.set_delay_feedback,
      FunDSPSynth.set_delay_mix, FunDSPSynth.set_filter_cutoff,
      FunDSPSynth.set_filter_resonance] <;>
    (try split) <;> rfl

/-- C4: for every parameter setter, reading the parameter immediately
after the setter returns the argument clamped (by Rust `f32::clamp`
semantics) to the documented domain: sustain to [0,1], attack and decay to
[0.001,5], release to [0.001,10], master volume to [0,1], delay time to
[0,5], delay feedback and mix to [0,1], filter cutoff to [20,20000],
filter resonance to [0,1]; in particular `set_sustain 1.5` then
`get_sustain` gives 1.0 and `set_attack (-1.0)` then `get_attack` gives
0.001.  The `enabled = true` hypothesis is the invariant established by
`handle_event_preserves_enabled`. -/
theorem get_after_set_clamps (s : FunDSPSynth) (v : F32) (h : s.enabled = true) :
    (s.set_attack v).get_attack = rustClamp v (.finite (1/1000)) (.finite 5)
  ∧ (s.set_decay v).get_decay = rustClamp v (.finite (1/1000)) (.finite 5)
  ∧ (s.set_sustain v).get_sustain = rustClamp v (.finite 0) (.finite 1)
  ∧ (s.set_release v).get_release = rustClamp v (.finite (1/1000)) (.finite 10)
  ∧ (s.set_master_volume v).get_master_volume = rustClamp v (.finite 0) (.finite 1)
  ∧ (s.set_delay_time v).get_delay_time = rustClamp v (.finite 0) (.finite 5)
  ∧ (s.set_delay_feedback v).get_delay_feedback = rustClamp v (.finite 0) (.finite 1)
  ∧ (s.set_delay_mix v).get_delay_mix = rustClamp v (.finite 0) (.finite 1)
  ∧ (s.set_filter_cutoff v).get_filter_cutoff = rustClamp v (.finite 20) (.finite 20000)
  ∧ (s.set_filter_resonance v).get_filter_resonance = rustClamp v (.finite 0) (.finite 1)
  ∧ (s.set_sustain (.finite (3/2))).get_sustain = .finite 1
  ∧ (s.set_attack (.finite (-1))).get_attack = .finite (1/1000) := by
  refine ⟨?_, ?_, ?_, ?_, ?_, ?_, ?_, ?_, ?_, ?_, ?_, ?_⟩
  · simp [FunDSPSynth.set_attack, FunDSPSynth.set_adsr, FunDSPSynth.get_attack, h]
  · simp [FunDSPSynth.set_decay, FunDSPSynth.set_adsr, FunDSPSynth.get_decay, h]
  · simp [FunDSPSynth.set_sustain, FunDSPSynth.set_adsr, FunDSPSynth.get_sustain, h]
  · simp [FunDSPSynth.set_release, FunDSPSynth.set_adsr, FunDSPSynth.get_release, h]
  · simp [FunDSPSynth.set_master_volume, FunDSPSynth.get_master_volume, h]
  · simp [FunDSPSynth.set_delay_time, FunDSPSynth.get_delay_time, h]
  · simp [FunDSPSynth.set_delay_feedback, FunDSPSynth.get_delay_feedback, h]
  · simp [FunDSPSynth.set_delay_mix, FunDSPSynth.get_delay_mix]
  · simp [FunDSPSynth.set_filter_cutoff, FunDSPSynth.get_filter_cutoff, h]
  · simp [FunDSPSynth.set_filter_resonance, FunDSPSynth.get_filter_resonance, h]
  · simp [FunDSPSynth.set_sustain, FunDSPSynth.set_adsr, FunDSPSynth.get_sustain, h,
      rustClamp_finite]
    norm_num
  · simp [FunDSPSynth.set_attack, FunDSPSynth.set_adsr, FunDSPSynth.get_attack, h,
      rustClamp_finite]
    norm_num

theorem get_after_set_clamps_witness :
    (initialSynth.set_sustain (.finite (3/2))).get_sustain = .finite 1 ∧
    (initialSynth.set_attack (.finite (-1))).get_attack = .finite (1/1000) := by
  have h := get_after_set_clamps initialSynth (.finite 0) rfl
  exact ⟨h.2.2.2.2.2.2.2.2.2.2.1, h.2.2.2.2.2.2.2.2.2.2.2⟩

/-- C5: handling `PlayNote f` stores `f` in the shared frequency cell and
raises the gate cell to 1.0; handling `SetFrequency f` stores `f` and
leaves the gate unchanged; handling `NoteOff` lowers the gate to 0.0 and
leaves the frequency unchanged. -/
theorem play_note_routing (s : FunDSPSynth) (f : F32) (h : s.enabled = true) :
    ((s.handle_event (.playNote f)).1.frequencyVar = f
      ∧ (s.handle_event (.playNote f)).1.keyDownVar = .finite 1)
  ∧ ((s.handle_event (.setFrequency f)).1.frequencyVar = f
      ∧ (s.handle_event (.setFrequency f)).1.keyDownVar = s.keyDownVar)
  ∧ ((s.handle_event .noteOff).1.keyDownVar = .finite 0
      ∧ (s.handle_event .noteOff).1.frequencyVar = s.frequencyVar) := by
  simp [FunDSPSynth.handle_event, FunDSPSynth.play_note,
    FunDSPSynth.set_frequency, FunDSPSynth.note_off, h]

theorem play_note_routing_witness :
    (initialSynth.handle_event (.playNote (.finite 440))).1.frequencyVar = .finite 440 ∧
    (initialSynth.handle_event .noteOff).1.keyDownVar = .finite 0 :=
  ⟨(play_note_routing initialSynth (.finite 440) rfl).1.1,
   (play_note_routing initialSynth (.finite 440) rfl).2.2.1⟩

/-- C7: the four ADSR setters store the clamped value and then replace the
envelope node and commit; `set_delay_time` stores the clamped value and
then replaces the delay node and commits; `set_delay_feedback`,
`set_delay_mix`, `set_filter_cutoff` and `set_filter_resonance` store the
clamped value and leave the net mutation log (the graph structure)
unchanged. -/
theorem adsr_delay_graph_mutation (s : FunDSPSynth) (v : F32) (h : s.enabled = true) :
    ((s.set_attack v).attackVar = rustClamp v (.finite (1/1000)) (.finite 5)
      ∧ (s.set_attack v).netOps = s.netOps ++
          [.replaceAdsr (rustClamp v (.finite (1/1000)) (.finite 5))
            s.decayVar s.sustainVar s.releaseVar, .commit])
  ∧ ((s.set_decay v).decayVar = rustClamp v (.finite (1/1000)) (.finite 5)
      ∧ (s.set_decay v).netOps = s.netOps ++
          [.replaceAdsr s.attackVar (rustClamp v (.finite (1/1000)) (.finite 5))
            s.sustainVar s.releaseVar, .commit])
  ∧ ((s.set_sustain v).sustainVar = rustClamp v (.finite 0) (.finite 1)
      ∧ (s.set_sustain v).netOps = s.netOps ++
          [.replaceAdsr s.attackVar s.decayVar
            (rustClamp v (.finite 0) (.finite 1)) s.releaseVar, .commit])
  ∧ ((s.set_release v).releaseVar = rustClamp v (.finite (1/1000)) (.finite 10)
      ∧ (s.set_release v).netOps = s.netOps ++
          [.replaceAdsr s.attackVar s.decayVar s.sustainVar
            (rustClamp v (.finite (1/1000)) (.finite 10)), .commit])
  ∧ ((s.set_delay_time v).delayTimeVar = rustClamp v (.finite 0) (.finite 5)
      ∧ (s.set_delay_time v).netOps = s.netOps ++
          [.replaceDelay (rustClamp v (.finite 0) (.finite 5)), .commit])
  ∧ ((s.set_delay_feedback v).delayFeedbackVar = rustClamp v (.finite 0) (.finite 1)
      ∧ (s.set_delay_feedback v).netOps = s.netOps)
  ∧ ((s.set_delay_mix v).delayMixVar = rustClamp v (.finite 0) (.finite 1)
      ∧ (s.set_delay_mix v).netOps = s.netOps)
  ∧ ((s.set_filter_cutoff v).filterCutoffVar = rustClamp v (.finite 20) (.finite 20000)
      ∧ (s.set_filter_cutoff v).netOps = s.netOps)
  ∧ ((s.set_filter_resonance v).filterResonanceVar = rustClamp v (.finite 0) (.finite 1)
      ∧ (s.set_filter_resonance v).netOps = s.netOps) := by
  refine ⟨?_, ?_, ?_, ?_, ?_, ?_, ?_, ?_, ?_⟩
  · simp [FunDSPSynth.set_attack, FunDSPSynth.set_adsr, h]
  · simp [FunDSPSynth.set_decay, FunDSPSynth.set_adsr, h]
  · simp [FunDSPSynth.set_sustain, FunDSPSynth.set_adsr, h]
  · simp [FunDSPSynth.set_release, FunDSPSynth.set_adsr, h]
  · simp [FunDSPSynth.set_delay_time, h]
  · simp [FunDSPSynth.set_delay_feedback, h]
  · simp [FunDSPSynth.set_delay_mix]
  · simp [FunDSPSynth.set_filter_cutoff, h]
  · simp [FunDSPSynth.set_filter_resonance, h]

theorem adsr_delay_graph_mutation_witness :
    (initialSynth.set_attack (.finite 2)).netOps =
      initialSynth.netOps ++
        [.replaceAdsr (rustClamp (.finite 2) (.finite (1/1000)) (.finite 5))
          initialSynth.decayVar initialSynth.sustainVar initialSynth.releaseVar,
         .commit] ∧
    (initialSynth.set_delay_feedback (.finite 2)).netOps = initialSynth.netOps :=
  ⟨(adsr_delay_graph_mutation initialSynth (.finite 2) rfl).1.2,
   (adsr_delay_graph_mutation initialSynth (.finite 2) rfl).2.2.2.2.2.1.2⟩

/-- C8: `note_off` is idempotent — calling it twice leaves the synth in
exactly the state one call produces, so the envelope sees the same gate
trajectory. -/
theorem note_off_idempotent (s : FunDSPSynth) :
    s.note_off.note_off = s.note_off := by
  rcases s with ⟨cw, fv, kv, mv, av, dv, sv, rv, dtv, dfv, dmv, fcv, frv, sr, en, ops⟩
  cases en <;> simp [FunDSPSynth.note_off]

/-- Whether an `AudioEventResult` is the `Err` variant. -/
def AudioEventResult.isErr : AudioEventResult → Bool
  | .err _ => true
  | _ => false

/-- Whether an `AudioEventResult` carries a typed value. -/
def AudioEventResult.isValue : AudioEventResult → Bool
  | .valueF32 _ => true
  | .valueWaveform _ => true
  | _ => false

/-- Whether an event is one of the `Get*` queries. -/
def AudioEvent.isQuery : AudioEvent → Bool
  | .getMasterVolume | .getWaveform | .getAttack | .getDecay | .getSustain
  | .getRelease | .getDelayTime | .getDelayFeedback | .getDelayMix
  | .getFilterCutoff | .getFilterResonance => true
  | _ => false

/-- C10: `handle_event` never returns `AudioEventResult::Err`; every
non-query event returns `Ok` and every `Get*` query returns a typed value
(`ValueF32` or `ValueWaveform`). -/
theorem handle_event_never_err (s : FunDSPSynth) (e : AudioEvent) :
    ((s.handle_event e).2.isErr = false)
  ∧ (e.isQuery = false → (s.handle_event e).2 = .ok)
  ∧ (e.isQuery = true → (s.handle_event e).2.isValue = true) := by
  cases e <;>
    simp [FunDSPSynth.handle_event, AudioEvent.isQuery,
      AudioEventResult.isErr, AudioEventResult.isValue]

theorem handle_event_never_err_witness :
    (initialSynth.handle_event .getAttack).2.isValue = true ∧
    (initialSynth.handle_event .noteOff).2 = .ok :=
  ⟨(handle_event_never_err initialSynth .getAttack).2.2 rfl,
   (handle_event_never_err initialSynth .noteOff).2.1 rfl⟩

/-- The per-buffer render copy loop of `fill_buffer`: work through the
output in chunks of at most `MAX_BUFFER_SIZE = 64` samples, asking the
backend for each chunk and copying it out with `src.clamp(-1.0, 1.0)`
applied to every sample.  The backend is modelled as the stream of samples
it would produce, indexed by position. -/
def fillChunks (backend : ℕ → F32) (i : ℕ) (remaining : ℕ) : List F32 :=
  if _h : remaining = 0 then []
  else
    ((List.range (min remaining 64)).map
        (fun j => rustClamp (backend (i + j)) (.finite (-1)) (.finite 1))) ++
      fillChunks backend (i + min remaining 64) (remaining - min remaining 64)
termination_by remaining
decreasing_by
  omega

/-- The chunked copy loop writes, position by position, exactly the
clamped backend samples. -/
lemma fillChunks_eq (backend : ℕ → F32) :
    ∀ remaining i, fillChunks backend i remaining =
      (List.range remaining).map
        (fun j => rustClamp (backend (i + j)) (.finite (-1)) (.finite 1)) := by
  intro remaining
  induction remaining using Nat.strong_induction_on with
  | _ remaining ih =>
    intro i
    rw [fillChunks.eq_def]
    by_cases h : remaining = 0
    · simp [h]
    · rw [dif_neg h]
      rw [ih (remaining - min remaining 64) (by omega) (i + min remaining 64)]
      conv_rhs =>
        rw [show remaining = min remaining 64 + (remaining - min remaining 64) by omega,
          List.range_add]
      rw [List.map_append, List.map_map]
      have hfun : ((fun j => rustClamp (backend (i + j)) (F32.finite (-1)) (F32.finite 1)) ∘
            fun x => min remaining 64 + x) =
          (fun j => rustClamp (backend (i + min remaining 64 + j))
            (F32.finite (-1)) (F32.finite 1)) := by
        funext j
        simp [Function.comp, Nat.add_assoc]
      rw [hfun]

/-- The outcome of one `fill_buffer` call: the updated synth, what is left
in the queue, the samples written to the output slice, and how many
samples were requested from the render backend. -/
structure FillResult where
  synth : FunDSPSynth
  queueAfter : List AudioEvent
  output : List F32
  backendConsumed : ℕ
deriving DecidableEq, Repr

/-- `fill_buffer`: when disabled, fill the output with 0.0 and return at
once; otherwise drain and coalesce the queue, handle each surviving
event, then render the buffer chunk-wise with per-sample clamping. -/
def FunDSPSynth.fill_buffer (s : FunDSPSynth) (queue : List AudioEvent)
    (backend : ℕ → F32) (outLen : ℕ) : FillResult :=
  if s.enabled = false then
    { synth := s, queueAfter := queue,
      output := List.replicate outLen (.finite 0), backendConsumed := 0 }
  else
    let events := drainAndCoalesceEvents queue
    let s1 := events.foldl (fun st e => (st.handle_event e).1) s
    { synth := s1, queueAfter := [],
      output := fillChunks backend 0 outLen, backendConsumed := outLen }

/-- C9: with the enabled flag false, `fill_buffer` writes 0.0 to every
sample, leaves the queue undrained, never invokes the backend, and leaves
the synth state unchanged. -/
theorem fill_buffer_disabled (s : FunDSPSynth) (queue : List AudioEvent)
    (backend : ℕ → F32) (outLen : ℕ) (h : s.enabled = false) :
    s.fill_buffer queue backend outLen =
      { synth := s, queueAfter := queue,
        output := List.replicate outLen (.finite 0), backendConsumed := 0 } := by
  simp [FunDSPSynth.fill_buffer, h]

/-- A synth whose enabled flag is down, for the C9 witness. -/
def disabledSynth : FunDSPSynth := { initialSynth with enabled := false }

theorem fill_buffer_disabled_witness :
    disabledSynth.fill_buffer [.noteOff] (fun _ => .finite 7) 3 =
      { synth := disabledSynth, queueAfter := [.noteOff],
        output := List.replicate 3 (.finite 0), backendConsumed := 0 } :=
  fill_buffer_disabled disabledSynth [.noteOff] (fun _ => .finite 7) 3 rfl

/-- C2 (amended): every sample written by `fill_buffer` is the backend
sample passed through Rust `f32::clamp(-1.0, 1.0)`.  A non-NaN backend
sample therefore always lands in [-1, 1] (infinities and out-of-range
values are clamped to the nearest bound, not replaced by silence), while a
NaN backend sample is written through unchanged, because Rust clamp
propagates NaN. -/
theorem fill_buffer_clamps (s : FunDSPSynth) (queue : List AudioEvent)
    (backend : ℕ → F32) (outLen : ℕ) (h : s.enabled = true) :
    (s.fill_buffer queue backend outLen).output =
      (List.range outLen).map (fun j => rustClamp (backend j) (.finite (-1)) (.finite 1))
  ∧ (∀ x : F32, x ≠ .nan →
      ∃ q : ℚ, rustClamp x (.finite (-1)) (.finite 1) = .finite q ∧ -1 ≤ q ∧ q ≤ 1)
  ∧ rustClamp .nan (.finite (-1)) (.finite 1) = .nan := by
  refine ⟨?_, ?_, rfl⟩
  · simp [FunDSPSynth.fill_buffer, h, fillChunks_eq]
  · intro x hx
    cases x with
    | finite q =>
      rw [rustClamp_finite]
      by_cases h1 : q < -1
      · exact ⟨-1, by simp [h1], by norm_num, by norm_num⟩
      · by_cases h2 : 1 < q
        · exact ⟨1, by simp [h1, h2], by norm_num, by norm_num⟩
        · exact ⟨q, by simp [h1, h2], by linarith, by linarith⟩
    | posInf => exact ⟨1, by simp [rustClamp, F32.lt], by norm_num, by norm_num⟩
    | negInf => exact ⟨-1, by simp [rustClamp, F32.lt], by norm_num, by norm_num⟩
    | nan => exact absurd rfl hx

theorem fill_buffer_clamps_witness :
    (initialSynth.fill_buffer [] (fun _ => .finite 2) 1).output =
      (List.range 1).map
        (fun j => rustClamp ((fun _ => F32.finite 2) j) (.finite (-1)) (.finite 1)) :=
  (fill_buffer_clamps initialSynth [] (fun _ => .finite 2) 1 rfl).1

/-- C2 (counterexample to the claim as stated): a NaN backend sample is
written to the output slice as NaN — not finite, not replaced by
silence — because `src.clamp(-1.0, 1.0)` returns NaN for NaN input. -/
theorem fill_buffer_nan_passthrough :
    (initialSynth.fill_buffer [] (fun _ => F32.nan) 1).output = [F32.nan] ∧
    F32.nan.isFinite = false := by
  have he : initialSynth.enabled = true := rfl
  constructor
  · simp [FunDSPSynth.fill_buffer, he, fillChunks_eq, rustClamp, F32.lt]
  · rfl

/-- What a Tauri command run amounts to in this model: either it runs to
completion with a resulting synth state, or it panics. -/
inductive CommandOutcome where
  | completed (s : FunDSPSynth)
  | panicked
deriving DecidableEq, Repr

/-- Model of the `set_waveform` command of `commands.rs`: it calls
`Waveform::from_str(&waveform).unwrap()` before building the event, so
`from_str` returning `None` panics the command instead of reaching any
error-handling branch. -/
def set_waveform_command (s : FunDSPSynth) (waveform : String) : CommandOutcome :=
  match Waveform.fromStr waveform.toList with
  | none => .panicked
  | some w => .completed (s.handle_event (.setWaveform w)).1

/-- C3 (code bug): `Waveform::from_str` accepts exactly the
case-insensitive names sine/square/sawtooth/triangle and returns `None`
otherwise, but the `set_waveform` command unwraps the option, so an
invalid waveform string panics the command instead of failing with the
explicit error the spec requires. -/
theorem waveform_invalid_panics :
    Waveform.fromStr "banjo".toList = none ∧
    Waveform.fromStr "SINE".toList = some .sine ∧
    Waveform.fromStr "Triangle".toList = some .triangle ∧
    set_waveform_command initialSynth "banjo" = .panicked := by
  refine ⟨?_, ?_, ?_, ?_⟩ <;> rfl

/-- What an open attempt reports back on success, as read off the opened
oboe stream: `get_frames_per_callback()` and `get_sample_rate()`. -/
structure StreamInfo where
  actualFrames : ℕ
  actualSampleRate : ℕ
deriving DecidableEq, Repr

/-- The three configuration strategies of `initialize_audio_engine`, in
the order the code tries them. -/
inductive StrategyMode where
  | lowLatencyExclusive
  | powerSavingExclusive
  | lowLatencyShared
deriving DecidableEq, Repr

/-- The stream configuration the search keeps: which strategy, which
requested rate and buffer size, and what the opened stream reported. -/
structure ChosenStream where
  strategy : StrategyMode
  requestedRate : ℕ
  requestedBuf : ℕ
  info : StreamInfo
deriving DecidableEq, Repr

/-- The mutable search state of `initialize_audio_engine`: the kept
stream, `best_latency` (initialised to `f32::MAX`), and
`final_sample_rate`. -/
structure SearchState where
  stream : Option ChosenStream
  bestLatency : ℚ
  finalSampleRate : ℚ
deriving DecidableEq, Repr

/-- `f32::MAX`, the initial value of `best_latency`. -/
def f32Max : ℚ := 2 ^ 128 - 2 ^ 104

/-- `let sample_rates = [48000, 44100];` — preference order. -/
def sampleRates : List ℕ := [48000, 44100]

/-- `let buffer_sizes = [16, 24, 32, 48, 64];` — iterated in this
(ascending) array order. -/
def bufferSizes : List ℕ := [16, 24, 32, 48, 64]

/-- `latency_ms = (actual_frames as f32 / sample_rate as f32) * 1000.0`:
note the division is by the REQUESTED sample rate of the attempt, not by
the actual rate of the opened stream. -/
def latencyMs (actualFrames : ℕ) (requestedRate : ℕ) : ℚ :=
  (actualFrames : ℚ) / (requestedRate : ℚ) * 1000

/-- The realized latency of the kept configuration in the metric the
code uses: actual frames over requested rate. -/
def chosenLatency (c : ChosenStream) : ℚ := latencyMs c.info.actualFrames c.requestedRate

/-- One strategy-1 attempt (`CALLBACK+LowLatency+Exclusive`): on success
the stream is kept when `latency_ms < best_latency`; on failure the state
is unchanged. -/
def tryLowLatencyExclusive (oracle : StrategyMode → ℕ → ℕ → Option StreamInfo)
    (st : SearchState) (rate buf : ℕ) : SearchState :=
  match oracle .lowLatencyExclusive rate buf with
  | some info =>
    if latencyMs info.actualFrames rate < st.bestLatency then
      { stream := some ⟨.lowLatencyExclusive, rate, buf, info⟩,
        bestLatency := latencyMs info.actualFrames rate,
        finalSampleRate := (rate : ℚ) }
    else st
  | none => st

/-- One strategy-2 attempt (`CALLBACK+PowerSaving+Exclusive`): kept when
`stream.is_none() || latency_ms < best_latency`. -/
def tryPowerSavingExclusive (oracle : StrategyMode → ℕ → ℕ → Option StreamInfo)
    (st : SearchState) (rate buf : ℕ) : SearchState :=
  match oracle .powerSavingExclusive rate buf with
  | some info =>
    if st.stream = none ∨ latencyMs info.actualFrames rate < st.bestLatency then
      { stream := some ⟨.powerSavingExclusive, rate, buf, info⟩,
        bestLatency := latencyMs info.actualFrames rate,
        finalSampleRate := (rate : ℚ) }
    else st
  | none => st

/-- The nested `for sample_rate { for buffer_size { ... } }` sweep order,
as the flat list of (rate, buffer) attempts. -/
def sweepPairs : List (ℕ × ℕ) :=
  sampleRates.flatMap (fun r => bufferSizes.map (fun b => (r, b)))

/-- Strategy 1: the full low-latency exclusive sweep. -/
def strategy1 (oracle : StrategyMode → ℕ → ℕ → Option StreamInfo)
    (st : SearchState) : SearchState :=
  sweepPairs.foldl (fun st2 rb => tryLowLatencyExclusive oracle st2 rb.1 rb.2) st

/-- Strategy 2: the full power-saving exclusive sweep. -/
def strategy2 (oracle : StrategyMode → ℕ → ℕ → Option StreamInfo)
    (st : SearchState) : SearchState :=
  sweepPairs.foldl (fun st2 rb => tryPowerSavingExclusive oracle st2 rb.1 rb.2) st

/-- Strategy 3 (`CALLBACK+LowLatency+Shared`): a single conservative
buffer size of 64 frames, looping over the sample rates and breaking out
at the first kept success. -/
def strategy3 (oracle : StrategyMode → ℕ → ℕ → Option StreamInfo) :
    List ℕ → SearchState → SearchState
  | [], st => st
  | rate :: rest, st =>
    match oracle .lowLatencyShared rate 64 with
    | some info =>
      if st.stream = none ∨ latencyMs info.actualFrames rate < st.bestLatency then
        { stream := some ⟨.lowLatencyShared, rate, 64, info⟩,
          bestLatency := latencyMs info.actualFrames rate,
          finalSampleRate := (rate : ℚ) }
      else strategy3 oracle rest st
    | none => strategy3 oracle rest st

/-- The search state before any attempt: no stream, `best_latency` at the
`f32::MAX` sentinel, `final_sample_rate` at its initial 48000. -/
def initSearchState : SearchState :=
  { stream := none, bestLatency := f32Max, finalSampleRate := 48000 }

/-- The state after the strategy-1 sweep. -/
def stage1 (oracle : StrategyMode → ℕ → ℕ → Option StreamInfo) : SearchState :=
  strategy1 oracle initSearchState

/-- The state after the guarded strategy-2 sweep (`if stream.is_none()`). -/
def stage2 (oracle : StrategyMode → ℕ → ℕ → Option StreamInfo) : SearchState :=
  if (stage1 oracle).stream = none then strategy2 oracle (stage1 oracle)
  else stage1 oracle

/-- The state after the guarded strategy-3 loop (`if stream.is_none()`). -/
def stage3 (oracle : StrategyMode → ℕ → ℕ → Option StreamInfo) : SearchState :=
  if (stage2 oracle).stream = none then strategy3 oracle sampleRates (stage2 oracle)
  else stage2 oracle

/-- The stream negotiation of `initialize_audio_engine` (the
`open_best_stream` contract of the spec): strategy 1, then strategy 2 only if no
stream was kept, then strategy 3 only if still none; error exactly when
no strategy produced a stream. -/
def openBestStream (oracle : StrategyMode → ℕ → ℕ → Option StreamInfo) :
    Except String ChosenStream :=
  match (stage3 oracle).stream with
  | some c => .ok c
  | none => .error "Failed to initialize callback audio stream"

/-- The three strategies. -/
def allModes : List StrategyMode :=
  [.lowLatencyExclusive, .powerSavingExclusive, .lowLatencyShared]

/-- Every attempted open reports a frame count whose computed latency is
below `f32::MAX`.  This encodes that `get_frames_per_callback` returns an
`i32`, so the `f32` comparison against the `f32::MAX` sentinel cannot
saturate. -/
def oracleBounded (oracle : StrategyMode → ℕ → ℕ → Option StreamInfo) : Prop :=
  ∀ m ∈ allModes, ∀ r ∈ sampleRates, ∀ b ∈ bufferSizes,
    ((oracle m r b).all fun info => decide (latencyMs info.actualFrames r < f32Max)) = true

/-- Every (rate, buffer) attempt of an exclusive-mode sweep fails. -/
def allFailExclusive (oracle : StrategyMode → ℕ → ℕ → Option StreamInfo)
    (m : StrategyMode) : Prop :=
  ∀ r ∈ sampleRates, ∀ b ∈ bufferSizes, oracle m r b = none

/-- Every shared-mode attempt (buffer 64) fails. -/
def allFailShared (oracle : StrategyMode → ℕ → ℕ → Option StreamInfo) : Prop :=
  ∀ r ∈ sampleRates, oracle StrategyMode.lowLatencyShared r 64 = none

lemma oracleBounded_lat (oracle : StrategyMode → ℕ → ℕ → Option StreamInfo)
    (hb : oracleBounded oracle) (m : StrategyMode) (hm : m ∈ allModes)
    (r b : ℕ) (info : StreamInfo) (hr : r ∈ sampleRates) (hbuf : b ∈ bufferSizes)
    (h : oracle m r b = some info) : latencyMs info.actualFrames r < f32Max := by
  have h2 := hb m hm r hr b hbuf
  rw [h] at h2
  simpa using h2

/-- The search invariant: with no stream kept, `best_latency` still holds
the `f32::MAX` sentinel; with a stream kept, `best_latency` is exactly
the computed latency of that stream. -/
def searchWF (st : SearchState) : Prop :=
  match st.stream with
  | none => st.bestLatency = f32Max
  | some c => st.bestLatency = chosenLatency c

lemma try1_fail (oracle : StrategyMode → ℕ → ℕ → Option StreamInfo)
    (st : SearchState) (r b : ℕ) (h : oracle .lowLatencyExclusive r b = none) :
    tryLowLatencyExclusive oracle st r b = st := by
  unfold tryLowLatencyExclusive
  rw [h]

lemma try1_wf (oracle : StrategyMode → ℕ → ℕ → Option StreamInfo)
    (st : SearchState) (r b : ℕ) (h : searchWF st) :
    searchWF (tryLowLatencyExclusive oracle st r b) := by
  unfold tryLowLatencyExclusive
  split
  · split
    · simp [searchWF, chosenLatency]
    · exact h
  · exact h

lemma try1_isSome_mono (oracle : StrategyMode → ℕ → ℕ → Option StreamInfo)
    (st : SearchState) (r b : ℕ) (h : st.stream.isSome = true) :
    (tryLowLatencyExclusive oracle st r b).stream.isSome = true := by
  unfold tryLowLatencyExclusive
  split
  · split
    · rfl
    · exact h
  · exact h

lemma try1_best_mono (oracle : StrategyMode → ℕ → ℕ → Option StreamInfo)
    (st : SearchState) (r b : ℕ) :
    (tryLowLatencyExclusive oracle st r b).bestLatency ≤ st.bestLatency := by
  unfold tryLowLatencyExclusive
  split
  · split
    · next hc => exact le_of_lt hc
    · exact le_refl _
  · exact le_refl _

lemma try1_best_le (oracle : StrategyMode → ℕ → ℕ → Option StreamInfo)
    (st : SearchState) (r b : ℕ) (info : StreamInfo)
    (h : oracle .lowLatencyExclusive r b = some info) :
    (tryLowLatencyExclusive oracle st r b).bestLatency ≤ latencyMs info.actualFrames r := by
  unfold tryLowLatencyExclusive
  split
  · next info2 heq =>
    rw [h] at heq
    injection heq with he
    subst he
    split
    · exact le_refl _
    · next hc => exact le_of_not_lt hc
  · next heq =>
    rw [h] at heq
    simp at heq

lemma try1_success_isSome (oracle : StrategyMode → ℕ → ℕ → Option StreamInfo)
    (r b : ℕ) (info : StreamInfo)
    (h : oracle .lowLatencyExclusive r b = some info)
    (hlat : latencyMs info.actualFrames r < f32Max) :
    ∀ st : SearchState, searchWF st →
      (tryLowLatencyExclusive oracle st r b).stream.isSome = true := by
  intro st hwf
  unfold tryLowLatencyExclusive
  split
  · next info2 heq =>
    rw [h] at heq
    injection heq with he
    subst he
    split
    · rfl
    · next hc =>
      cases hs : st.stream with
      | some c => rfl
      | none =>
        have hmax : st.bestLatency = f32Max := by
          unfold searchWF at hwf
          rw [hs] at hwf
          exact hwf
        rw [hmax] at hc
        exact absurd hlat hc
  · next heq =>
    rw [h] at heq
    simp at heq

lemma try1_tag (oracle : StrategyMode → ℕ → ℕ → Option StreamInfo)
    (st : SearchState) (r b : ℕ) :
    (tryLowLatencyExclusive oracle st r b).stream = st.stream ∨
      ∃ c, (tryLowLatencyExclusive oracle st r b).stream = some c ∧
        c.strategy = .lowLatencyExclusive := by
  unfold tryLowLatencyExclusive
  split
  · split
    · exact Or.inr ⟨_, rfl, rfl⟩
    · exact Or.inl rfl
  · exact Or.inl rfl

lemma try2_fail (oracle : StrategyMode → ℕ → ℕ → Option StreamInfo)
    (st : SearchState) (r b : ℕ) (h : oracle .powerSavingExclusive r b = none) :
    tryPowerSavingExclusive oracle st r b = st := by
  unfold tryPowerSavingExclusive
  rw [h]

lemma try2_wf (oracle : StrategyMode → ℕ → ℕ → Option StreamInfo)
    (st : SearchState) (r b : ℕ) (h : searchWF st) :
    searchWF (tryPowerSavingExclusive oracle st r b) := by
  unfold tryPowerSavingExclusive
  split
  · split
    · simp [searchWF, chosenLatency]
    · exact h
  · exact h

lemma try2_isSome_mono (oracle : StrategyMode → ℕ → ℕ → Option StreamInfo)
    (st : SearchState) (r b : ℕ) (h : st.stream.isSome = true) :
    (tryPowerSavingExclusive oracle st r b).stream.isSome = true := by
  unfold tryPowerSavingExclusive
  split
  · split
    · rfl
    · exact h
  · exact h

lemma try2_best_mono_of_some (oracle : StrategyMode → ℕ → ℕ → Option StreamInfo)
    (st : SearchState) (r b : ℕ) (hs : st.stream.isSome = true) :
    (tryPowerSavingExclusive oracle st r b).bestLatency ≤ st.bestLatency := by
  unfold tryPowerSavingExclusive
  split
  · split
    · next hc =>
      rcases hc with hc | hc
      · rw [hc] at hs
        simp at hs
      · exact le_of_lt hc
    · exact le_refl _
  · exact le_refl _

lemma try2_best_le (oracle : StrategyMode → ℕ → ℕ → Option StreamInfo)
    (st : SearchState) (r b : ℕ) (info : StreamInfo)
    (h : oracle .powerSavingExclusive r b = some info) :
    (tryPowerSavingExclusive oracle st r b).bestLatency ≤ latencyMs info.actualFrames r := by
  unfold tryPowerSavingExclusive
  split
  · next info2 heq =>
    rw [h] at heq
    injection heq with he
    subst he
    split
    · exact le_refl _
    · next hc =>
      push_neg at hc
      exact hc.2
  · next heq =>
    rw [h] at heq
    simp at heq

lemma try2_success_isSome (oracle : StrategyMode → ℕ → ℕ → Option StreamInfo)
    (r b : ℕ) (info : StreamInfo)
    (h : oracle .powerSavingExclusive r b = some info) :
    ∀ st : SearchState, (tryPowerSavingExclusive oracle st r b).stream.isSome = true := by
  intro st
  unfold tryPowerSavingExclusive
  split
  · next info2 heq =>
    split
    · rfl
    · next hc =>
      push_neg at hc
      cases hst : st.stream with
      | none => exact absurd hst hc.1
      | some c => rfl
  · next heq =>
    rw [h] at heq
    simp at heq

lemma try2_tag (oracle : StrategyMode → ℕ → ℕ → Option StreamInfo)
    (st : SearchState) (r b : ℕ) :
    (tryPowerSavingExclusive oracle st r b).stream = st.stream ∨
      ∃ c, (tryPowerSavingExclusive oracle st r b).stream = some c ∧
        c.strategy = .powerSavingExclusive := by
  unfold tryPowerSavingExclusive
  split
  · split
    · exact Or.inr ⟨_, rfl, rfl⟩
    · exact Or.inl rfl
  · exact Or.inl rfl

lemma foldl_search_wf (f : SearchState → ℕ × ℕ → SearchState)
    (hf : ∀ st rb, searchWF st → searchWF (f st rb)) :
    ∀ (L : List (ℕ × ℕ)) (st : SearchState), searchWF st → searchWF (L.foldl f st) := by
  intro L
  induction L with
  | nil => intro st h; exact h
  | cons rb rest ih => intro st h; exact ih (f st rb) (hf st rb h)

lemma foldl_search_isSome (f : SearchState → ℕ × ℕ → SearchState)
    (hf : ∀ st rb, st.stream.isSome = true → (f st rb).stream.isSome = true) :
    ∀ (L : List (ℕ × ℕ)) (st : SearchState),
      st.stream.isSome = true → (L.foldl f st).stream.isSome = true := by
  intro L
  induction L with
  | nil => intro st h; exact h
  | cons rb rest ih => intro st h; exact ih (f st rb) (hf st rb h)

lemma foldl_search_unchanged (f : SearchState → ℕ × ℕ → SearchState) :
    ∀ (L : List (ℕ × ℕ)) (st : SearchState),
      (∀ rb ∈ L, ∀ st2, f st2 rb = st2) → L.foldl f st = st := by
  intro L
  induction L with
  | nil => intro st _; rfl
  | cons rb rest ih =>
    intro st h
    have h1 : f st rb = st := h rb (by simp) st
    rw [List.foldl_cons, h1]
    exact ih st (fun rb2 hrb2 st2 => h rb2 (by simp [hrb2]) st2)

lemma foldl_search_best_mono (f : SearchState → ℕ × ℕ → SearchState)
    (hf : ∀ st rb, (f st rb).bestLatency ≤ st.bestLatency) :
    ∀ (L : List (ℕ × ℕ)) (st : SearchState),
      (L.foldl f st).bestLatency ≤ st.bestLatency := by
  intro L
  induction L with
  | nil => intro st; exact le_refl _
  | cons rb rest ih =>
    intro st
    exact le_trans (ih (f st rb)) (hf st rb)

lemma foldl_search_best_le (f : SearchState → ℕ × ℕ → SearchState)
    (hmono : ∀ st rb, (f st rb).bestLatency ≤ st.bestLatency)
    (rb0 : ℕ × ℕ) (target : ℚ)
    (hstep : ∀ st2, (f st2 rb0).bestLatency ≤ target) :
    ∀ (L : List (ℕ × ℕ)) (st : SearchState), rb0 ∈ L →
      (L.foldl f st).bestLatency ≤ target := by
  intro L
  induction L with
  | nil => intro st h; simp at h
  | cons rb rest ih =>
    intro st hmem
    rcases List.mem_cons.mp hmem with heq | hmem2
    · subst heq
      rw [List.foldl_cons]
      exact le_trans (foldl_search_best_mono f hmono rest (f st rb0)) (hstep st)
    · exact ih (f st rb) hmem2

lemma foldl_search_isSome_of_mem (f : SearchState → ℕ × ℕ → SearchState)
    (hwf : ∀ st rb, searchWF st → searchWF (f st rb))
    (hsome : ∀ st rb, st.stream.isSome = true → (f st rb).stream.isSome = true)
    (rb0 : ℕ × ℕ)
    (hstep : ∀ st2, searchWF st2 → (f st2 rb0).stream.isSome = true) :
    ∀ (L : List (ℕ × ℕ)) (st : SearchState), searchWF st → rb0 ∈ L →
      (L.foldl f st).stream.isSome = true := by
  intro L
  induction L with
  | nil => intro st _ h; simp at h
  | cons rb rest ih =>
    intro st hwfst hmem
    rcases List.mem_cons.mp hmem with heq | hmem2
    · subst heq
      rw [List.foldl_cons]
      exact foldl_search_isSome f hsome rest (f st rb0) (hstep st hwfst)
    · exact ih (f st rb) (hwf st rb hwfst) hmem2

lemma foldl_search_tag (f : SearchState → ℕ × ℕ → SearchState) (m : StrategyMode)
    (htag : ∀ st rb, (f st rb).stream = st.stream ∨
      ∃ c, (f st rb).stream = some c ∧ c.strategy = m) :
    ∀ (L : List (ℕ × ℕ)) (st : SearchState),
      (L.foldl f st).stream = st.stream ∨
        ∃ c, (L.foldl f st).stream = some c ∧ c.strategy = m := by
  intro L
  induction L with
  | nil => intro st; exact Or.inl rfl
  | cons rb rest ih =>
    intro st
    rcases ih (f st rb) with h1 | h1
    · rcases htag st rb with h2 | h2
      · rw [List.foldl_cons]
        exact Or.inl (h1.trans h2)
      · obtain ⟨c, hc, hm⟩ := h2
        rw [List.foldl_cons]
        exact Or.inr ⟨c, h1.trans hc, hm⟩
    · rw [List.foldl_cons]
      exact Or.inr h1

lemma mem_sweepPairs (r b : ℕ) :
    (r, b) ∈ sweepPairs ↔ r ∈ sampleRates ∧ b ∈ bufferSizes := by
  constructor
  · intro h
    rw [sweepPairs, List.mem_flatMap] at h
    obtain ⟨r2, hr2, hmem⟩ := h
    rw [List.mem_map] at hmem
    obtain ⟨b2, hb2, heq⟩ := hmem
    obtain ⟨h1, h2⟩ := Prod.mk.injEq .. ▸ heq
    exact ⟨h1 ▸ hr2, h2 ▸ hb2⟩
  · intro ⟨hr, hb⟩
    rw [sweepPairs, List.mem_flatMap]
    exact ⟨r, hr, List.mem_map.mpr ⟨b, hb, rfl⟩⟩

lemma strategy3_unchanged (oracle : StrategyMode → ℕ → ℕ → Option StreamInfo) :
    ∀ (rates : List ℕ) (st : SearchState),
      (∀ r ∈ rates, oracle .lowLatencyShared r 64 = none) →
      strategy3 oracle rates st = st := by
  intro rates
  induction rates with
  | nil => intro st _; rfl
  | cons r rest ih =>
    intro st h
    have h1 : oracle .lowLatencyShared r 64 = none := h r (by simp)
    unfold strategy3
    rw [h1]
    exact ih st (fun r2 hr2 => h r2 (by simp [hr2]))

lemma strategy3_some_of_success (oracle : StrategyMode → ℕ → ℕ → Option StreamInfo) :
    ∀ (rates : List ℕ) (st : SearchState), st.stream = none →
      (∃ r ∈ rates, oracle .lowLatencyShared r 64 ≠ none) →
      ∃ c, (strategy3 oracle rates st).stream = some c ∧
        c.strategy = .lowLatencyShared ∧ c.requestedBuf = 64 := by
  intro rates
  induction rates with
  | nil =>
    intro st _ h
    simp at h
  | cons r rest ih =>
    intro st hnone hex
    unfold strategy3
    split
    · rw [if_pos (Or.inl hnone)]
      exact ⟨_, rfl, rfl, rfl⟩
    · next heq =>
      obtain ⟨r2, hr2, hne⟩ := hex
      rcases List.mem_cons.mp hr2 with heq2 | hmem
      · subst heq2
        exact absurd heq hne
      · exact ih st hnone ⟨r2, hmem, hne⟩

lemma searchWF_some (st : SearchState) (c : ChosenStream)
    (h : searchWF st) (hs : st.stream = some c) :
    st.bestLatency = chosenLatency c := by
  unfold searchWF at h
  rw [hs] at h
  exact h

lemma try2_best_mono_wf (oracle : StrategyMode → ℕ → ℕ → Option StreamInfo)
    (st : SearchState) (r b : ℕ) (hwf : searchWF st)
    (hbound : ∀ info, oracle .powerSavingExclusive r b = some info →
      latencyMs info.actualFrames r < f32Max) :
    (tryPowerSavingExclusive oracle st r b).bestLatency ≤ st.bestLatency := by
  cases hs : st.stream with
  | some c => exact try2_best_mono_of_some oracle st r b (by rw [hs]; rfl)
  | none =>
    have hm : st.bestLatency = f32Max := by
      unfold searchWF at hwf
      rw [hs] at hwf
      exact hwf
    unfold tryPowerSavingExclusive
    split
    · next info heq =>
      split
      · rw [hm]
        exact le_of_lt (hbound info heq)
      · exact le_refl _
    · exact le_refl _

lemma foldl_search_best_mono_wf (f : SearchState → ℕ × ℕ → SearchState) :
    ∀ (L : List (ℕ × ℕ)) (st : SearchState),
      (∀ rb ∈ L, ∀ st2, searchWF st2 → searchWF (f st2 rb)) →
      (∀ rb ∈ L, ∀ st2, searchWF st2 → (f st2 rb).bestLatency ≤ st2.bestLatency) →
      searchWF st → (L.foldl f st).bestLatency ≤ st.bestLatency := by
  intro L
  induction L with
  | nil => intro st _ _ _; exact le_refl _
  | cons rb rest ih =>
    intro st hwf hmono hst
    rw [List.foldl_cons]
    have h1 := hmono rb (by simp) st hst
    have h2 := ih (f st rb) (fun rb2 h st2 => hwf rb2 (by simp [h]) st2)
      (fun rb2 h st2 => hmono rb2 (by simp [h]) st2) (hwf rb (by simp) st hst)
    exact le_trans h2 h1

lemma foldl_search_best_le_wf (f : SearchState → ℕ × ℕ → SearchState)
    (rb0 : ℕ × ℕ) (target : ℚ)
    (hstep : ∀ st2, (f st2 rb0).bestLatency ≤ target) :
    ∀ (L : List (ℕ × ℕ)) (st : SearchState),
      (∀ rb ∈ L, ∀ st2, searchWF st2 → searchWF (f st2 rb)) →
      (∀ rb ∈ L, ∀ st2, searchWF st2 → (f st2 rb).bestLatency ≤ st2.bestLatency) →
      searchWF st → rb0 ∈ L → (L.foldl f st).bestLatency ≤ target := by
  intro L
  induction L with
  | nil => intro st _ _ _ h; simp at h
  | cons rb rest ih =>
    intro st hwf hmono hst hmem
    rcases List.mem_cons.mp hmem with heq | hmem2
    · subst heq
      rw [List.foldl_cons]
      have hwfstep : searchWF (f st rb0) := hwf rb0 (by simp) st hst
      have hm := foldl_search_best_mono_wf f rest (f st rb0)
        (fun rb2 h st2 => hwf rb2 (by simp [h]) st2)
        (fun rb2 h st2 => hmono rb2 (by simp [h]) st2) hwfstep
      exact le_trans hm (hstep st)
    · rw [List.foldl_cons]
      exact ih (f st rb) (fun rb2 h st2 => hwf rb2 (by simp [h]) st2)
        (fun rb2 h st2 => hmono rb2 (by simp [h]) st2)
        (hwf rb (by simp) st hst) hmem2

lemma initSearchState_wf : searchWF initSearchState := rfl

lemma stage1_wf (oracle : StrategyMode → ℕ → ℕ → Option StreamInfo) :
    searchWF (stage1 oracle) := by
  unfold stage1 strategy1
  exact foldl_search_wf _ (fun st rb h => try1_wf oracle st rb.1 rb.2 h)
    sweepPairs initSearchState initSearchState_wf

lemma stage1_all_fail (oracle : StrategyMode → ℕ → ℕ → Option StreamInfo)
    (h : allFailExclusive oracle .lowLatencyExclusive) :
    stage1 oracle = initSearchState := by
  unfold stage1 strategy1
  apply foldl_search_unchanged
  intro rb hrb st2
  rcases rb with ⟨r, b⟩
  obtain ⟨hr, hbuf⟩ := (mem_sweepPairs r b).mp hrb
  exact try1_fail oracle st2 r b (h r hr b hbuf)

lemma stage1_some (oracle : StrategyMode → ℕ → ℕ → Option StreamInfo)
    (hb : oracleBounded oracle)
    (h : ¬ allFailExclusive oracle .lowLatencyExclusive) :
    (stage1 oracle).stream.isSome = true := by
  unfold allFailExclusive at h
  push_neg at h
  obtain ⟨r, hr, b, hbuf, hne⟩ := h
  obtain ⟨info, hinfo⟩ := Option.ne_none_iff_exists'.mp hne
  have hlat := oracleBounded_lat oracle hb .lowLatencyExclusive
    (by simp [allModes]) r b info hr hbuf hinfo
  unfold stage1 strategy1
  exact foldl_search_isSome_of_mem _
    (fun st rb h2 => try1_wf oracle st rb.1 rb.2 h2)
    (fun st rb h2 => try1_isSome_mono oracle st rb.1 rb.2 h2)
    (r, b)
    (fun st2 hwf2 => try1_success_isSome oracle r b info hinfo hlat st2 hwf2)
    sweepPairs initSearchState initSearchState_wf
    ((mem_sweepPairs r b).mpr ⟨hr, hbuf⟩)

lemma stage1_tag (oracle : StrategyMode → ℕ → ℕ → Option StreamInfo)
    (c : ChosenStream) (hc : (stage1 oracle).stream = some c) :
    c.strategy = .lowLatencyExclusive := by
  have h := foldl_search_tag (fun st rb => tryLowLatencyExclusive oracle st rb.1 rb.2)
    .lowLatencyExclusive (fun st rb => try1_tag oracle st rb.1 rb.2)
    sweepPairs initSearchState
  unfold stage1 strategy1 at hc
  rcases h with h1 | ⟨c2, hc2, hm⟩
  · rw [hc] at h1
    simp [initSearchState] at h1
  · rw [hc] at hc2
    injection hc2 with he
    subst he
    exact hm

lemma stage1_min (oracle : StrategyMode → ℕ → ℕ → Option StreamInfo)
    (r b : ℕ) (info : StreamInfo) (hr : r ∈ sampleRates) (hbuf : b ∈ bufferSizes)
    (hs : oracle .lowLatencyExclusive r b = some info) :
    (stage1 oracle).bestLatency ≤ latencyMs info.actualFrames r := by
  unfold stage1 strategy1
  exact foldl_search_best_le _
    (fun st rb => try1_best_mono oracle st rb.1 rb.2)
    (r, b) (latencyMs info.actualFrames r)
    (fun st2 => try1_best_le oracle st2 r b info hs)
    sweepPairs initSearchState ((mem_sweepPairs r b).mpr ⟨hr, hbuf⟩)

lemma stage2_of_some (oracle : StrategyMode → ℕ → ℕ → Option StreamInfo)
    (h : (stage1 oracle).stream.isSome = true) :
    stage2 oracle = stage1 oracle := by
  have hne : (stage1 oracle).stream ≠ none := by
    intro hc
    rw [hc] at h
    simp at h
  unfold stage2
  rw [if_neg hne]

lemma stage2_of_fail1 (oracle : StrategyMode → ℕ → ℕ → Option StreamInfo)
    (h1 : allFailExclusive oracle .lowLatencyExclusive) :
    stage2 oracle = strategy2 oracle initSearchState := by
  unfold stage2
  rw [stage1_all_fail oracle h1]
  have hn : initSearchState.stream = none := rfl
  rw [if_pos hn]

lemma s2init_wf (oracle : StrategyMode → ℕ → ℕ → Option StreamInfo) :
    searchWF (strategy2 oracle initSearchState) := by
  unfold strategy2
  exact foldl_search_wf _ (fun st rb h => try2_wf oracle st rb.1 rb.2 h)
    sweepPairs initSearchState initSearchState_wf

lemma s2init_unchanged (oracle : StrategyMode → ℕ → ℕ → Option StreamInfo)
    (h : allFailExclusive oracle .powerSavingExclusive) :
    strategy2 oracle initSearchState = initSearchState := by
  unfold strategy2
  apply foldl_search_unchanged
  intro rb hrb st2
  rcases rb with ⟨r, b⟩
  obtain ⟨hr, hbuf⟩ := (mem_sweepPairs r b).mp hrb
  exact try2_fail oracle st2 r b (h r hr b hbuf)

lemma s2init_some (oracle : StrategyMode → ℕ → ℕ → Option StreamInfo)
    (h : ¬ allFailExclusive oracle .powerSavingExclusive) :
    (strategy2 oracle initSearchState).stream.isSome = true := by
  unfold allFailExclusive at h
  push_neg at h
  obtain ⟨r, hr, b, hbuf, hne⟩ := h
  obtain ⟨info, hinfo⟩ := Option.ne_none_iff_exists'.mp hne
  unfold strategy2
  exact foldl_search_isSome_of_mem _
    (fun st rb h2 => try2_wf oracle st rb.1 rb.2 h2)
    (fun st rb h2 => try2_isSome_mono oracle st rb.1 rb.2 h2)
    (r, b)
    (fun st2 _ => try2_success_isSome oracle r b info hinfo st2)
    sweepPairs initSearchState initSearchState_wf
    ((mem_sweepPairs r b).mpr ⟨hr, hbuf⟩)

lemma s2init_tag (oracle : StrategyMode → ℕ → ℕ → Option StreamInfo)
    (c : ChosenStream) (hc : (strategy2 oracle initSearchState).stream = some c) :
    c.strategy = .powerSavingExclusive := by
  have h := foldl_search_tag (fun st rb => tryPowerSavingExclusive oracle st rb.1 rb.2)
    .powerSavingExclusive (fun st rb => try2_tag oracle st rb.1 rb.2)
    sweepPairs initSearchState
  unfold strategy2 at hc
  rcases h with h1 | ⟨c2, hc2, hm⟩
  · rw [hc] at h1
    simp [initSearchState] at h1
  · rw [hc] at hc2
    injection hc2 with he
    subst he
    exact hm

lemma s2init_min (oracle : StrategyMode → ℕ → ℕ → Option StreamInfo)
    (hb : oracleBounded oracle)
    (r b : ℕ) (info : StreamInfo) (hr : r ∈ sampleRates) (hbuf : b ∈ bufferSizes)
    (hs : oracle .powerSavingExclusive r b = some info) :
    (strategy2 oracle initSearchState).bestLatency ≤ latencyMs info.actualFrames r := by
  unfold strategy2
  refine foldl_search_best_le_wf _ (r, b) (latencyMs info.actualFrames r)
    (fun st2 => try2_best_le oracle st2 r b info hs)
    sweepPairs initSearchState
    (fun rb hrb st2 h2 => try2_wf oracle st2 rb.1 rb.2 h2)
    ?_ initSearchState_wf ((mem_sweepPairs r b).mpr ⟨hr, hbuf⟩)
  intro rb hrb st2 h2
  rcases rb with ⟨r2, b2⟩
  obtain ⟨hr2, hb2⟩ := (mem_sweepPairs r2 b2).mp hrb
  exact try2_best_mono_wf oracle st2 r2 b2 h2
    (fun info2 hinfo2 => oracleBounded_lat oracle hb .powerSavingExclusive
      (by simp [allModes]) r2 b2 info2 hr2 hb2 hinfo2)

lemma stage3_of_some (oracle : StrategyMode → ℕ → ℕ → Option StreamInfo)
    (h : (stage2 oracle).stream.isSome = true) :
    stage3 oracle = stage2 oracle := by
  have hne : (stage2 oracle).stream ≠ none := by
    intro hc
    rw [hc] at h
    simp at h
  unfold stage3
  rw [if_neg hne]

lemma openBestStream_ok (oracle : StrategyMode → ℕ → ℕ → Option StreamInfo)
    (c : ChosenStream) (h : (stage3 oracle).stream = some c) :
    openBestStream oracle = Except.ok c := by
  unfold openBestStream
  rw [h]

lemma openBestStream_err (oracle : StrategyMode → ℕ → ℕ → Option StreamInfo)
    (h : (stage3 oracle).stream = none) :
    openBestStream oracle = Except.error "Failed to initialize callback audio stream" := by
  unfold openBestStream
  rw [h]

/-- C6 (amended): `openBestStream` tries the low-latency exclusive sweep
over every (sample rate, buffer size) pair (rates in preference order
48000 then 44100, buffers in array order 16, 24, 32, 48, 64); only if
every such attempt fails does power-saving exclusive run over the same
sweep; only if that also fails does shared mode run with the single
conservative buffer size 64; among all successful opens of the decisive
exclusive sweep it keeps the configuration with the lowest COMPUTED
latency `actual_buffer_frames / requested_sample_rate` (the code divides
by the requested rate, not the actual rate of the opened stream); and it
errors exactly when every configuration in every strategy fails. -/
theorem open_best_stream_search (oracle : StrategyMode → ℕ → ℕ → Option StreamInfo)
    (hb : oracleBounded oracle) :
    (openBestStream oracle = Except.error "Failed to initialize callback audio stream" ↔
      allFailExclusive oracle .lowLatencyExclusive ∧
        allFailExclusive oracle .powerSavingExclusive ∧ allFailShared oracle)
  ∧ (¬ allFailExclusive oracle .lowLatencyExclusive →
      ∃ c, openBestStream oracle = Except.ok c ∧ c.strategy = .lowLatencyExclusive ∧
        ∀ r ∈ sampleRates, ∀ b ∈ bufferSizes, ∀ info : StreamInfo,
          oracle .lowLatencyExclusive r b = some info →
            chosenLatency c ≤ latencyMs info.actualFrames r)
  ∧ (allFailExclusive oracle .lowLatencyExclusive →
      ¬ allFailExclusive oracle .powerSavingExclusive →
      ∃ c, openBestStream oracle = Except.ok c ∧ c.strategy = .powerSavingExclusive ∧
        ∀ r ∈ sampleRates, ∀ b ∈ bufferSizes, ∀ info : StreamInfo,
          oracle .powerSavingExclusive r b = some info →
            chosenLatency c ≤ latencyMs info.actualFrames r)
  ∧ (allFailExclusive oracle .lowLatencyExclusive →
      allFailExclusive oracle .powerSavingExclusive →
      ¬ allFailShared oracle →
      ∃ c, openBestStream oracle = Except.ok c ∧ c.strategy = .lowLatencyShared ∧
        c.requestedBuf = 64) := by
  have case1 : ¬ allFailExclusive oracle .lowLatencyExclusive →
      ∃ c, openBestStream oracle = Except.ok c ∧ c.strategy = .lowLatencyExclusive ∧
        ∀ r ∈ sampleRates, ∀ b ∈ bufferSizes, ∀ info : StreamInfo,
          oracle .lowLatencyExclusive r b = some info →
            chosenLatency c ≤ latencyMs info.actualFrames r := by
    intro hna
    have hsome1 := stage1_some oracle hb hna
    obtain ⟨c, hc⟩ := Option.isSome_iff_exists.mp hsome1
    have h2 := stage2_of_some oracle hsome1
    have h3 : stage3 oracle = stage1 oracle := by
      rw [stage3_of_some oracle (by rw [h2]; exact hsome1), h2]
    have hok := openBestStream_ok oracle c (by rw [h3]; exact hc)
    refine ⟨c, hok, stage1_tag oracle c hc, ?_⟩
    intro r hr b hbuf info hinfo
    have hmin := stage1_min oracle r b info hr hbuf hinfo
    have hbest := searchWF_some (stage1 oracle) c (stage1_wf oracle) hc
    rw [← hbest]
    exact hmin
  have case2 : allFailExclusive oracle .lowLatencyExclusive →
      ¬ allFailExclusive oracle .powerSavingExclusive →
      ∃ c, openBestStream oracle = Except.ok c ∧ c.strategy = .powerSavingExclusive ∧
        ∀ r ∈ sampleRates, ∀ b ∈ bufferSizes, ∀ info : StreamInfo,
          oracle .powerSavingExclusive r b = some info →
            chosenLatency c ≤ latencyMs info.actualFrames r := by
    intro h1 hna2
    have hst2 : stage2 oracle = strategy2 oracle initSearchState := stage2_of_fail1 oracle h1
    have hsome2 := s2init_some oracle hna2
    obtain ⟨c, hc⟩ := Option.isSome_iff_exists.mp hsome2
    have hsome2b : (stage2 oracle).stream.isSome = true := by
      rw [hst2]
      exact hsome2
    have h3 : stage3 oracle = stage2 oracle := stage3_of_some oracle hsome2b
    have hok := openBestStream_ok oracle c (by rw [h3, hst2]; exact hc)
    refine ⟨c, hok, s2init_tag oracle c hc, ?_⟩
    intro r hr b hbuf info hinfo
    have hmin := s2init_min oracle hb r b info hr hbuf hinfo
    have hbest := searchWF_some _ c (s2init_wf oracle) hc
    rw [← hbest]
    exact hmin
  have case3 : allFailExclusive oracle .lowLatencyExclusive →
      allFailExclusive oracle .powerSavingExclusive →
      ¬ allFailShared oracle →
      ∃ c, openBestStream oracle = Except.ok c ∧ c.strategy = .lowLatencyShared ∧
        c.requestedBuf = 64 := by
    intro h1 h2 hna3
    have hst2 : stage2 oracle = initSearchState := by
      rw [stage2_of_fail1 oracle h1, s2init_unchanged oracle h2]
    have hx : ∃ r ∈ sampleRates, oracle .lowLatencyShared r 64 ≠ none := by
      unfold allFailShared at hna3
      push_neg at hna3
      exact hna3
    have h3eq : stage3 oracle = strategy3 oracle sampleRates initSearchState := by
      unfold stage3
      rw [hst2]
      have hn : initSearchState.stream = none := rfl
      rw [if_pos hn]
    obtain ⟨c, hc, htag, hbuf⟩ :=
      strategy3_some_of_success oracle sampleRates initSearchState rfl hx
    exact ⟨c, openBestStream_ok oracle c (by rw [h3eq]; exact hc), htag, hbuf⟩
  have caseAll : allFailExclusive oracle .lowLatencyExclusive →
      allFailExclusive oracle .powerSavingExclusive → allFailShared oracle →
      openBestStream oracle = Except.error "Failed to initialize callback audio stream" := by
    intro h1 h2 h3
    have hst2 : stage2 oracle = initSearchState := by
      rw [stage2_of_fail1 oracle h1, s2init_unchanged oracle h2]
    have h3eq : stage3 oracle = initSearchState := by
      unfold stage3
      rw [hst2]
      have hn : initSearchState.stream = none := rfl
      rw [if_pos hn]
      exact strategy3_unchanged oracle sampleRates initSearchState h3
    exact openBestStream_err oracle (by rw [h3eq]; rfl)
  refine ⟨?_, case1, case2, case3⟩
  constructor
  · intro herr
    by_cases h1 : allFailExclusive oracle .lowLatencyExclusive
    · by_cases h2 : allFailExclusive oracle .powerSavingExclusive
      · by_cases h3 : allFailShared oracle
        · exact ⟨h1, h2, h3⟩
        · obtain ⟨c, hok, _, _⟩ := case3 h1 h2 h3
          rw [hok] at herr
          simp at herr
      · obtain ⟨c, hok, _, _⟩ := case2 h1 h2
        rw [hok] at herr
        simp at herr
    · obtain ⟨c, hok, _, _⟩ := case1 h1
      rw [hok] at herr
      simp at herr
  · intro ⟨h1, h2, h3⟩
    exact caseAll h1 h2 h3

/-- A backend in which two low-latency exclusive attempts succeed: the
(48000 Hz, 16 frames) request opens a stream that reports 50 frames at an
actual rate of 8000 Hz, and the (44100 Hz, 64 frames) request opens a
stream that reports 64 frames at an actual 44100 Hz. -/
def oracleCX : StrategyMode → ℕ → ℕ → Option StreamInfo := fun m r b =>
  if m = StrategyMode.lowLatencyExclusive ∧ r = 48000 ∧ b = 16 then
    some ⟨50, 8000⟩
  else if m = StrategyMode.lowLatencyExclusive ∧ r = 44100 ∧ b = 64 then
    some ⟨64, 44100⟩
  else none

/-- Evaluation form of a successful strategy-1 attempt. -/
lemma try1_eval_some (oracle : StrategyMode → ℕ → ℕ → Option StreamInfo)
    (st : SearchState) (r b : ℕ) (info : StreamInfo)
    (h : oracle .lowLatencyExclusive r b = some info) :
    tryLowLatencyExclusive oracle st r b =
      if latencyMs info.actualFrames r < st.bestLatency then
        { stream := some ⟨.lowLatencyExclusive, r, b, info⟩,
          bestLatency := latencyMs info.actualFrames r,
          finalSampleRate := (r : ℚ) }
      else st := by
  unfold tryLowLatencyExclusive
  rw [h]

/-- The configuration the counterexample search keeps. -/
def cxKept : SearchState :=
  { stream := some ⟨.lowLatencyExclusive, 48000, 16, ⟨50, 8000⟩⟩,
    bestLatency := latencyMs 50 48000, finalSampleRate := ((48000 : ℕ) : ℚ) }

/-- C6 (counterexample to the claim as stated): the search keeps the
(48000, 16) configuration because its computed latency 50/48000 wins,
even though its realized latency `actual_frames / actual_sample_rate` is
50/8000 = 6.25 ms while the discarded successful open realizes
64/44100 ≈ 1.45 ms — so the kept configuration does not minimise
`actual_buffer_frames / actual_sample_rate` over the successful opens. -/
theorem open_best_stream_latency_counterexample :
    openBestStream oracleCX =
      Except.ok ⟨StrategyMode.lowLatencyExclusive, 48000, 16, ⟨50, 8000⟩⟩ ∧
    oracleCX StrategyMode.lowLatencyExclusive 44100 64 = some ⟨64, 44100⟩ ∧
    ((64 : ℚ) / 44100 < (50 : ℚ) / 8000) := by
  refine ⟨?_, by decide, by norm_num⟩
  have e16 : tryLowLatencyExclusive oracleCX initSearchState 48000 16 = cxKept := by
    rw [try1_eval_some oracleCX initSearchState 48000 16 ⟨50, 8000⟩ rfl]
    have hcond : latencyMs (50 : ℕ) 48000 < initSearchState.bestLatency := by
      norm_num [latencyMs, initSearchState, f32Max]
    rw [if_pos hcond]
    rfl
  have e64 : tryLowLatencyExclusive oracleCX cxKept 44100 64 = cxKept := by
    rw [try1_eval_some oracleCX cxKept 44100 64 ⟨64, 44100⟩ rfl]
    have hcond : ¬ latencyMs (64 : ℕ) 44100 < cxKept.bestLatency := by
      norm_num [latencyMs, cxKept]
    rw [if_neg hcond]
  have e1 : strategy1 oracleCX initSearchState = cxKept := by
    have hsp : sweepPairs =
        [(48000, 16), (48000, 24), (48000, 32), (48000, 48), (48000, 64),
         (44100, 16), (44100, 24), (44100, 32), (44100, 48), (44100, 64)] := rfl
    unfold strategy1
    rw [hsp]
    simp only [List.foldl_cons, List.foldl_nil]
    rw [e16,
      try1_fail oracleCX cxKept 48000 24 rfl,
      try1_fail oracleCX cxKept 48000 32 rfl,
      try1_fail oracleCX cxKept 48000 48 rfl,
      try1_fail oracleCX cxKept 48000 64 rfl,
      try1_fail oracleCX cxKept 44100 16 rfl,
      try1_fail oracleCX cxKept 44100 24 rfl,
      try1_fail oracleCX cxKept 44100 32 rfl,
      try1_fail oracleCX cxKept 44100 48 rfl,
      e64]
  have hstage1 : stage1 oracleCX = cxKept := by
    unfold stage1
    exact e1
  have hsome : (stage1 oracleCX).stream.isSome = true := by
    rw [hstage1]
    rfl
  have h2 := stage2_of_some oracleCX hsome
  have h3 : stage3 oracleCX = stage1 oracleCX := by
    rw [stage3_of_some oracleCX (by rw [h2]; exact hsome), h2]
  have hc : (stage3 oracleCX).stream =
      some ⟨.lowLatencyExclusive, 48000, 16, ⟨50, 8000⟩⟩ := by
    rw [h3, hstage1]
    rfl
  exact openBestStream_ok oracleCX _ hc

/-- A backend in which only power-saving exclusive (44100 Hz, 24 frames)
succeeds, for the C6 witness. -/
def oracleW : StrategyMode → ℕ → ℕ → Option StreamInfo := fun m r b =>
  if m = StrategyMode.powerSavingExclusive ∧ r = 44100 ∧ b = 24 then
    some ⟨24, 44100⟩
  else none

theorem open_best_stream_search_witness :
    ∃ c, openBestStream oracleW = Except.ok c ∧
      c.strategy = StrategyMode.powerSavingExclusive ∧
      ∀ r ∈ sampleRates, ∀ b ∈ bufferSizes, ∀ info : StreamInfo,
        oracleW .powerSavingExclusive r b = some info →
          chosenLatency c ≤ latencyMs info.actualFrames r := by
  refine (open_best_stream_search oracleW ?_).2.2.1 ?_ ?_
  · intro m hm r hr b hbuf
    fin_cases hm <;> fin_cases hr <;> fin_cases hbuf <;>
      simp [oracleW, latencyMs, f32Max] <;> norm_num
  · intro r hr b hbuf
    fin_cases hr <;> fin_cases hbuf <;> rfl
  · intro hall
    have h24 : oracleW .powerSavingExclusive 44100 24 = some ⟨24, 44100⟩ := rfl
    rw [hall 44100 (by simp [sampleRates]) 24 (by simp [bufferSizes])] at h24
    simp at h24
